import Mathlib

/-!
Shallow embedding of the stock-market-data-set fetcher (src/main.rs):
a batch utility that fetches one Yahoo-Finance history page per ticker
symbol, parses table rows into `Entry` records, and writes one CSV file
per symbol.  Pure parsing/serialisation code is translated directly;
network and file I/O are modelled by explicit result values and state
passing.
-/

namespace Stock

/-- Error taxonomy of the pipeline.  The Rust code uses `anyhow` errors;
the spec names the row-level failures `MalformedRow` / `InvalidDate` /
`InvalidNumber` and the I/O level failures `FetchError` / `IoError`. -/
inductive Err where
  | malformedRow
  | invalidDate
  | invalidNumber
  | fetchError
  | ioError
  deriving DecidableEq

/-- Lift an optional parse result into `Except`, tagging failure with the
given error (models the `?` operator on a fallible parse). -/
def req {α : Type} (e : Err) : Option α → Except Err α
  | some a => Except.ok a
  | none => Except.error e

/-- The decimal digit character for `d % 10` (ASCII `'0' + d % 10`). -/
def digitChar (d : Nat) : Char := Char.ofNat (48 + d % 10)

/-- Accumulator-style decimal digit expansion of a positive natural,
driven by a fuel argument (`fuel = n` always suffices, since `n` has at
most `n` digits). -/
def natToDigitsAux : Nat → Nat → List Char → List Char
  | 0, _, acc => acc
  | fuel + 1, n, acc =>
    if n = 0 then acc
    else natToDigitsAux fuel (n / 10) (digitChar (n % 10) :: acc)

/-- Decimal digit list of a natural number (`"0"` for zero), modelling
Rust's `Display` for unsigned integers. -/
def natToDigits (n : Nat) : List Char :=
  if n = 0 then ['0'] else natToDigitsAux n n []

/-- Decimal rendering of a natural number (Rust `u64` `Display`). -/
def natRender (n : Nat) : String := String.mk (natToDigits n)

/-- Value of a list of decimal digit characters, most significant first. -/
def digitsToNat (ds : List Char) : Nat :=
  ds.foldl (fun n c => n * 10 + (c.toNat - 48)) 0

/-- Left-pad a digit list with `'0'` up to length `k`. -/
def padZeros (ds : List Char) (k : Nat) : List Char :=
  List.replicate (k - ds.length) '0' ++ ds

/-- Exact decimal number `mantissa / 10 ^ exp`.  This models the value of
an `f64` obtained by parsing decimal text: on the inputs exercised here
(short decimals whose values are exactly representable in binary) the
`f64` holds the decimal value exactly, so exact-decimal semantics is
faithful. -/
structure Dec where
  mantissa : Int
  exp : Nat
  deriving DecidableEq

/-- Strip trailing zero digits of the fraction, recursing on the
exponent. -/
def normAux : Int → Nat → Dec
  | m, 0 => ⟨m, 0⟩
  | m, e + 1 => if m % 10 = 0 then normAux (m / 10) e else ⟨m, e + 1⟩

/-- Normalise a decimal by stripping trailing zero digits of the fraction
(`⟨10000, 2⟩` becomes `⟨100, 0⟩`).  Rust's `f64` `Display` prints the
shortest round-tripping decimal, which for an exactly-representable
parsed decimal is its trailing-zero-free form. -/
def Dec.norm (d : Dec) : Dec := normAux d.mantissa d.exp

/-- Decimal text of a `Dec`, modelling Rust's `f64` `Display` (shortest
round-trip form): optional sign, integer digits, and a fractional part
only when it is non-zero. -/
def Dec.render (d : Dec) : String :=
  let n := d.norm
  let sign := if n.mantissa < 0 then "-" else ""
  let ds := padZeros (natToDigits n.mantissa.natAbs) (n.exp + 1)
  if n.exp = 0 then sign ++ String.mk ds
  else
    sign ++ String.mk (ds.take (ds.length - n.exp)) ++ "." ++
      String.mk (ds.drop (ds.length - n.exp))

/-- Parse decimal floating-point text, modelling Rust's `str::parse::<f64>`
on plain decimal literals: optional sign, integer digits, optional `.`
and fraction digits, at least one digit overall.  (The special forms
`inf` / `nan` / exponents never occur in the source pages and are not
modelled.) -/
def parseDec (s : String) : Option Dec :=
  let cs := s.toList
  let (sign, cs) : Int × List Char :=
    match cs with
    | '-' :: rest => (-1, rest)
    | '+' :: rest => (1, rest)
    | cs => (1, cs)
  let (ip, cs) := cs.span Char.isDigit
  match cs with
  | [] => if ip = [] then none else some ⟨sign * digitsToNat ip, 0⟩
  | '.' :: rest =>
    let (fp, rest) := rest.span Char.isDigit
    if rest = [] ∧ ¬(ip = [] ∧ fp = []) then
      some ⟨sign * digitsToNat (ip ++ fp), fp.length⟩
    else none
  | _ => none

/-- Remove every comma character (Rust `volume.replace(',', "")`). -/
def stripCommas (s : String) : String :=
  String.mk (s.toList.filter (fun c => c ≠ ','))

/-- Parse a `u64`, modelling Rust's `str::parse::<u64>`: an optional `+`
sign, then one or more decimal digits, value below `2 ^ 64`. -/
def parseU64 (s : String) : Option Nat :=
  let cs := s.toList
  let cs := match cs with
    | '+' :: rest => rest
    | cs => cs
  if cs = [] then none
  else if cs.all Char.isDigit then
    let n := digitsToNat cs
    if n < 2 ^ 64 then some n else none
  else none

/-- A calendar date (no time component). -/
structure Date where
  year : Nat
  month : Nat
  day : Nat
  deriving DecidableEq

/-- Lowercased three-letter month abbreviations, in month order. -/
def monthAbbrevs : List (List Char) :=
  [['j','a','n'], ['f','e','b'], ['m','a','r'], ['a','p','r'],
   ['m','a','y'], ['j','u','n'], ['j','u','l'], ['a','u','g'],
   ['s','e','p'], ['o','c','t'], ['n','o','v'], ['d','e','c']]

/-- Number of days in a month of the proleptic Gregorian calendar. -/
def daysInMonth (y m : Nat) : Nat :=
  if m = 2 then
    if y % 4 = 0 ∧ (y % 100 ≠ 0 ∨ y % 400 = 0) then 29 else 28
  else if m = 4 ∨ m = 6 ∨ m = 9 ∨ m = 11 then 30
  else 31

/-- A calendar-valid year/month/day combination. -/
def dateValid (y m d : Nat) : Bool :=
  1 ≤ m ∧ m ≤ 12 ∧ 1 ≤ d ∧ d ≤ daysInMonth y m

/-- Parse a date with chrono's format string `"%b %-d, %Y"`: a
case-insensitive three-letter month abbreviation, whitespace, a one- or
two-digit day, a literal comma, whitespace, and a four-digit year; the
combination must be a valid calendar date. -/
def parseDate (s : String) : Option Date :=
  match s.toList with
  | m1 :: m2 :: m3 :: rest =>
    match monthAbbrevs.indexOf? [m1.toLower, m2.toLower, m3.toLower] with
    | none => none
    | some mIdx =>
      let month := mIdx + 1
      let rest := rest.dropWhile Char.isWhitespace
      let (dayDs, rest) := rest.span Char.isDigit
      if dayDs = [] ∨ 2 < dayDs.length then none
      else
        match rest with
        | ',' :: rest =>
          let rest := rest.dropWhile Char.isWhitespace
          let (yearDs, rest) := rest.span Char.isDigit
          if yearDs.length = 4 ∧ rest = [] then
            let y := digitsToNat yearDs
            let d := digitsToNat dayDs
            if dateValid y month d then some ⟨y, month, d⟩ else none
          else none
        | _ => none
  | _ => none

/-- ISO-8601 rendering `YYYY-MM-DD` (chrono's `NaiveDate` `Display`). -/
def dateRender (d : Date) : String :=
  String.mk (padZeros (natToDigits d.year) 4) ++ "-" ++
    String.mk (padZeros (natToDigits d.month) 2) ++ "-" ++
    String.mk (padZeros (natToDigits d.day) 2)

/-- One trading-day record (struct `Entry` of the source). -/
structure Entry where
  date : Date
  «open» : Dec
  high : Dec
  low : Dec
  close : Dec
  adj_close : Dec
  volume : Nat
  deriving DecidableEq

/-- `Entry::from_element`: the row's child-cell texts must number exactly
seven, otherwise the row is malformed; then each cell is parsed by its
field's type (date, five decimal prices, comma-stripped volume). -/
def Entry.from_element (cells : List String) : Except Err Entry :=
  match cells with
  | [date, o, hi, lo, cl, adj, vol] => do
    let date ← req Err.invalidDate (parseDate date)
    let o ← req Err.invalidNumber (parseDec o)
    let hi ← req Err.invalidNumber (parseDec hi)
    let lo ← req Err.invalidNumber (parseDec lo)
    let cl ← req Err.invalidNumber (parseDec cl)
    let adj ← req Err.invalidNumber (parseDec adj)
    let vol ← req Err.invalidNumber (parseU64 (stripCommas vol))
    Except.ok ⟨date, o, hi, lo, cl, adj, vol⟩
  | _ => Except.error Err.malformedRow

/-- The `Display` implementation for `Entry`: the seven fields joined by
commas, the date in ISO form, numbers in natural decimal text form. -/
def Entry.display (e : Entry) : String :=
  dateRender e.date ++ "," ++ e.«open».render ++ "," ++ e.high.render ++ "," ++
    e.low.render ++ "," ++ e.close.render ++ "," ++ e.adj_close.render ++ "," ++
    natRender e.volume

/-- The fixed CSV header bytes (constant `HEADERS` of the source). -/
def HEADERS : String := "Date,Open,High,Low,Close,Adj Close,Volume\n"

/-- The document extractor core of `get_data`: the rows matched by the
selector `tr.yf-ewueuo`, in document order, each given as its list of
child-cell texts; the first match is skipped and every remaining row is
passed through `Entry.from_element`, keeping the successes
(`.skip(1).flat_map(Entry::from_element)`). -/
def extract (rows : List (List String)) : List Entry :=
  (rows.drop 1).filterMap (fun r => (Entry.from_element r).toOption)

/-- The fold of `get_data` that accumulates one line per entry, each
terminated by a newline. -/
def dataString (entries : List Entry) : String :=
  entries.foldl (fun acc e => acc ++ e.display ++ "\n") ""

/-- Full contents of a symbol's output file: the header bytes followed by
the accumulated data lines. -/
def csvContent (entries : List Entry) : String :=
  HEADERS ++ dataString entries

/-- `Path::join` on string paths: appending an absolute component
replaces the path, otherwise the component is appended after a
separator. -/
def pathJoin (dir piece : String) : String :=
  if piece.toList.head? = some '/' then piece
  else if dir.toList.getLast? = some '/' then dir ++ piece
  else dir ++ "/" ++ piece

/-- Rust's `Path::file_stem` on a file name: the whole name when it
contains no `.` or when its only `.` is the leading character, otherwise
the portion before the final `.`. -/
def fileStem (name : List Char) : List Char :=
  let (_, rest) := name.reverse.span (fun c => c ≠ '.')
  match rest with
  | [] => name
  | _ :: restRev => if restRev = [] then name else restRev.reverse

/-- Rust's `Path::with_extension` with a non-empty extension: the final
component's extension (text after its last dot) is replaced by `ext`; a
path with an empty final component is returned unchanged. -/
def withExtension (path ext : String) : String :=
  let cs := path.toList
  let (nameRev, dirRev) := cs.reverse.span (fun c => c ≠ '/')
  if nameRev = [] then path
  else String.mk (dirRev.reverse ++ fileStem nameRev.reverse ++ ('.' :: ext.toList))

/-- The orchestrator's path derivation for one symbol
(`output_dir.join(symbol).with_extension("csv")`). -/
def outPath (dir symbol : String) : String :=
  withExtension (pathJoin dir symbol) "csv"

/-- `get_data` for one symbol, over an abstract fetch function returning
the selector-matched rows of the page (or a fetch failure) and an
abstract file write returning an I/O result: fetch the page, extract the
entries, and write header plus data lines to the output path. -/
def get_data (fetch : String → Except Err (List (List String)))
    (write : String → String → Except Err Unit)
    (symbol output : String) : Except Err Unit := do
  let rows ← fetch symbol
  write output (csvContent (extract rows))

/-- Fail-fast aggregation of the per-symbol pipelines
(`FuturesUnordered` + `try_collect`, sequenced deterministically in list
order): the first failure aborts the run with that symbol's error. -/
def runAll (pipeline : String → Except Err Unit) : List String → Except Err Unit
  | [] => Except.ok ()
  | s :: rest =>
    match pipeline s with
    | Except.error e => Except.error e
    | Except.ok _ => runAll pipeline rest

/-- The whole run of `main` after argument parsing: each symbol's
pipeline writes to `outPath dir symbol`, aggregated fail-fast. -/
def mainRun (fetch : String → Except Err (List (List String)))
    (write : String → String → Except Err Unit)
    (dir : String) (symbols : List String) : Except Err Unit :=
  runAll (fun s => get_data fetch write s (outPath dir s)) symbols

/-- The process exit status determined by `main`'s `anyhow::Result`:
`0` on `Ok`, non-zero on `Err`. -/
def exitCode (r : Except Err Unit) : Nat :=
  match r with
  | Except.ok _ => 0
  | Except.error _ => 1

/-- Durable state touched by the run: the set of existing directories and
the files on disk (path with contents). -/
structure Sys where
  dirs : List String
  files : List (String × String)
  deriving DecidableEq

/-- State-passing view of the per-symbol loop of `main`: each symbol is
fetched and, on success, its CSV file is recorded at `outPath dir s`;
the first fetch failure aborts the remaining symbols (writes already
performed stay on disk). -/
def runSymbolsFs (fetch : String → Except Err (List (List String)))
    (dir : String) : List String → Sys → Except Err Unit × Sys
  | [], sys => (Except.ok (), sys)
  | s :: rest, sys =>
    match fetch s with
    | Except.error e => (Except.error e, sys)
    | Except.ok rows =>
      runSymbolsFs fetch dir rest
        { sys with files := sys.files ++ [(outPath dir s, csvContent (extract rows))] }

/-- State-passing view of `main` (with directory creation succeeding):
`create_dir_all` records the output directory, then the symbols are
processed in order. -/
def mainFs (fetch : String → Except Err (List (List String)))
    (dir : String) (symbols : List String) (sys : Sys) : Except Err Unit × Sys :=
  runSymbolsFs fetch dir symbols
    { sys with dirs := if dir ∈ sys.dirs then sys.dirs else dir :: sys.dirs }

/-- The file-operation sequence of the CSV write in `get_data`, with an
injected failure point: the output file starts as `old` (`none` when
absent); operation 0 opens with create+truncate, operation 1 writes the
header bytes, operation 2 writes the data bytes.  `failAt` is the index
of the first operation to fail with `IoError` (`3` or more means the
write succeeds).  Returns the file contents on disk afterwards and
whether the write succeeded. -/
def writeFile (old : Option String) (data : String) (failAt : Nat) :
    Option String × Bool :=
  if failAt = 0 then (old, false)
  else if failAt = 1 then (some "", false)
  else if failAt = 2 then (some HEADERS, false)
  else (some (HEADERS ++ data), true)

/-- Spec-side description of the lenient row policy, following §4.3 of
the spec: starting after the skipped header row, each row is visited in
document order; a row the Row Parser accepts contributes its Entry, a
row it rejects is dropped. -/
inductive KeepsValid : List (List String) → List Entry → Prop
  | nil : KeepsValid [] []
  | keep (r : List String) (rows : List (List String)) (e : Entry) (out : List Entry) :
      Entry.from_element r = Except.ok e → KeepsValid rows out →
      KeepsValid (r :: rows) (e :: out)
  | drop (r : List String) (rows : List (List String)) (err : Err) (out : List Entry) :
      Entry.from_element r = Except.error err → KeepsValid rows out →
      KeepsValid (r :: rows) out

/-- Spec-side description of the Document Extractor's output, following
§4.3 of the spec: an empty match set yields an empty sequence; otherwise
the first matching row is excluded regardless of its content and the
remaining rows are processed by the lenient keep/drop policy in document
order. -/
inductive ExtractSpec : List (List String) → List Entry → Prop
  | nil : ExtractSpec [] []
  | start (r₀ : List String) (rows : List (List String)) (out : List Entry) :
      KeepsValid rows out → ExtractSpec (r₀ :: rows) out

/-- Prepend a character to the first piece of a line decomposition. -/
def consHead (c : Char) : List (List Char) → List (List Char)
  | [] => [[c]]
  | l :: ls => (c :: l) :: ls

/-- Split a character list into lines at newline characters
(`"a\nb\n"` yields `["a", "b", ""]`: a final empty piece records that
the text ended with a newline). -/
def linesOf : List Char → List (List Char)
  | [] => [[]]
  | c :: rest => if c = '\n' then [] :: linesOf rest else consHead c (linesOf rest)

/-! Helper lemmas. -/

theorem toList_append (a b : String) : (a ++ b).toList = a.toList ++ b.toList := rfl

theorem toList_mk (l : List Char) : (String.mk l).toList = l := rfl

theorem span_all_pos {p : Char → Bool} {xs : List Char} (h : ∀ c ∈ xs, p c = true) :
    xs.span p = (xs, []) := by
  rw [List.span_eq_take_drop, List.takeWhile_eq_self_iff.mpr h]
  have h2 : (xs ++ ([] : List Char)).dropWhile p = ([] : List Char).dropWhile p :=
    List.dropWhile_append_of_pos h
  simpa using h2

theorem span_middle {p : Char → Bool} {xs ys : List Char} {y : Char}
    (hx : ∀ c ∈ xs, p c = true) (hy : p y = false) :
    (xs ++ y :: ys).span p = (xs, y :: ys) := by
  rw [List.span_eq_take_drop, List.takeWhile_append_of_pos hx,
    List.dropWhile_append_of_pos hx]
  simp [List.takeWhile, List.dropWhile, hy]

theorem digitChar_ne_newline (d : Nat) : digitChar d ≠ '\n' := by
  unfold digitChar
  have h : d % 10 < 10 := Nat.mod_lt _ (by norm_num)
  set m := d % 10 with hm
  interval_cases m <;> decide

theorem newline_notin_natToDigitsAux (fuel : Nat) :
    ∀ n acc, '\n' ∉ acc → '\n' ∉ natToDigitsAux fuel n acc := by
  induction fuel with
  | zero => intro n acc hacc; exact hacc
  | succ fuel ih =>
    intro n acc hacc
    unfold natToDigitsAux
    split
    · exact hacc
    · refine ih _ _ ?_
      intro hmem
      rcases List.mem_cons.mp hmem with h1 | h1
      · exact digitChar_ne_newline _ h1.symm
      · exact hacc h1

theorem newline_notin_natToDigits (n : Nat) : '\n' ∉ natToDigits n := by
  unfold natToDigits
  split
  · decide
  · exact newline_notin_natToDigitsAux n n [] (by simp)

theorem newline_notin_padZeros {ds : List Char} (h : '\n' ∉ ds) (k : Nat) :
    '\n' ∉ padZeros ds k := by
  unfold padZeros
  intro hmem
  rcases List.mem_append.mp hmem with h1 | h1
  · exact absurd (List.eq_of_mem_replicate h1) (by decide)
  · exact h h1

theorem notin_take {c : Char} {l : List Char} (h : c ∉ l) (k : Nat) : c ∉ l.take k :=
  fun hm => h (List.take_subset _ _ hm)

theorem notin_drop {c : Char} {l : List Char} (h : c ∉ l) (k : Nat) : c ∉ l.drop k :=
  fun hm => h (List.drop_subset _ _ hm)

theorem newline_notin_decRender (d : Dec) : '\n' ∉ (Dec.render d).toList := by
  have hds : '\n' ∉ padZeros (natToDigits (Dec.norm d).mantissa.natAbs) ((Dec.norm d).exp + 1) :=
    newline_notin_padZeros (newline_notin_natToDigits _) _
  unfold Dec.render
  intro hmem
  dsimp only at hmem
  split at hmem <;>
    split at hmem <;>
      simp only [toList_append, toList_mk, List.mem_append] at hmem <;>
        casesm* _ ∨ _ <;>
          rename_i h1 <;>
            first
              | exact absurd h1 (by decide)
              | exact hds h1
              | exact notin_take hds _ h1
              | exact notin_drop hds _ h1

theorem newline_notin_dateRender (d : Date) : '\n' ∉ (dateRender d).toList := by
  unfold dateRender
  intro hmem
  simp only [toList_append, toList_mk, List.mem_append] at hmem
  casesm* _ ∨ _ <;>
    rename_i h1 <;>
      first
        | exact absurd h1 (by decide)
        | exact newline_notin_padZeros (newline_notin_natToDigits _) _ h1

theorem newline_notin_natRender (n : Nat) : '\n' ∉ (natRender n).toList :=
  newline_notin_natToDigits n

theorem newline_notin_display (e : Entry) : '\n' ∉ (Entry.display e).toList := by
  unfold Entry.display
  intro hmem
  simp only [toList_append, List.mem_append] at hmem
  casesm* _ ∨ _ <;>
    rename_i h1 <;>
      first
        | exact absurd h1 (by decide)
        | exact newline_notin_dateRender _ h1
        | exact newline_notin_decRender _ h1
        | exact newline_notin_natRender _ h1

theorem linesOf_append {xs : List Char} (ys : List Char) (h : '\n' ∉ xs) :
    linesOf (xs ++ '\n' :: ys) = xs :: linesOf ys := by
  induction xs with
  | nil => simp [linesOf]
  | cons c cs ih =>
    have hc : ¬(c = '\n') := fun h' => h (h' ▸ List.mem_cons_self c cs)
    have hcs : '\n' ∉ cs := fun hm => h (List.mem_cons_of_mem _ hm)
    rw [List.cons_append, linesOf, if_neg hc, ih hcs]
    simp [consHead]

theorem linesOf_flatten (ls : List (List Char)) (h : ∀ l ∈ ls, '\n' ∉ l) :
    linesOf (ls.map (fun l => l ++ ['\n'])).flatten = ls ++ [[]] := by
  induction ls with
  | nil => simp [linesOf]
  | cons l ls ih =>
    have hl : (l ++ ['\n']) ++ (ls.map (fun l => l ++ ['\n'])).flatten =
        l ++ '\n' :: (ls.map (fun l => l ++ ['\n'])).flatten := by simp
    simp only [List.map_cons, List.flatten_cons, hl]
    rw [linesOf_append _ (h l (List.mem_cons_self _ _)),
      ih (fun x hx => h x (List.mem_cons_of_mem _ hx))]
    rfl

theorem dataString_toList (entries : List Entry) :
    (dataString entries).toList =
      (entries.map (fun e => (Entry.display e).toList ++ ['\n'])).flatten := by
  suffices h : ∀ acc : String,
      (entries.foldl (fun acc e => acc ++ e.display ++ "\n") acc).toList =
        acc.toList ++ (entries.map fun e => (Entry.display e).toList ++ ['\n']).flatten by
    simpa [dataString] using h ""
  induction entries with
  | nil => simp
  | cons e es ih =>
    intro acc
    simp only [List.foldl_cons, ih, toList_append, List.map_cons, List.flatten_cons]
    simp [toList_append]

theorem runAll_ok_iff (p : String → Except Err Unit) (ss : List String) :
    runAll p ss = Except.ok () ↔ ∀ s ∈ ss, p s = Except.ok () := by
  induction ss with
  | nil => simp [runAll]
  | cons s rest ih =>
    unfold runAll
    cases hp : p s with
    | error e => simp [hp]
    | ok u => cases u; simp [hp, ih]

theorem runAll_error (p : String → Except Err Unit) (ss : List String) (e : Err)
    (h : runAll p ss = Except.error e) : ∃ s ∈ ss, p s = Except.error e := by
  induction ss with
  | nil => simp [runAll] at h
  | cons s rest ih =>
    unfold runAll at h
    cases hp : p s with
    | error e' =>
      rw [hp] at h
      refine ⟨s, List.mem_cons_self _ _, ?_⟩
      rw [hp]
      exact h
    | ok u =>
      cases u
      rw [hp] at h
      obtain ⟨s', hs', hps'⟩ := ih h
      exact ⟨s', List.mem_cons_of_mem _ hs', hps'⟩

theorem keepsValid_filterMap (rows : List (List String)) :
    KeepsValid rows (rows.filterMap (fun r => (Entry.from_element r).toOption)) := by
  induction rows with
  | nil => exact KeepsValid.nil
  | cons r rest ih =>
    cases hr : Entry.from_element r with
    | ok e =>
      have : (Entry.from_element r).toOption = some e := by rw [hr]; rfl
      simpa [List.filterMap_cons, this] using KeepsValid.keep r rest e _ hr ih
    | error err =>
      have : (Entry.from_element r).toOption = none := by rw [hr]; rfl
      simpa [List.filterMap_cons, this] using KeepsValid.drop r rest err _ hr ih

theorem keepsValid_det {rows : List (List String)} {out : List Entry}
    (h : KeepsValid rows out) :
    out = rows.filterMap (fun r => (Entry.from_element r).toOption) := by
  induction h with
  | nil => rfl
  | keep r rows e out hr _ ih =>
    have : (Entry.from_element r).toOption = some e := by rw [hr]; rfl
    simp [List.filterMap_cons, this, ih]
  | drop r rows err out hr _ ih =>
    have : (Entry.from_element r).toOption = none := by rw [hr]; rfl
    simp [List.filterMap_cons, this, ih]

theorem ok_bind {α β : Type} (a : α) (f : α → Except Err β) :
    (Except.ok a >>= f) = f a := rfl

theorem error_bind {α β : Type} (e : Err) (f : α → Except Err β) :
    ((Except.error e : Except Err α) >>= f) = Except.error e := rfl

/-! The claims. -/

/-- Claim C1: for every run over a list of symbols, the orchestrator's
overall result fails as soon as any single symbol's pipeline fails,
surfacing that symbol's error, and the process exits with status 0 only
if every symbol's pipeline succeeds. -/
theorem orchestrator_fail_fast (fetch : String → Except Err (List (List String)))
    (write : String → String → Except Err Unit) (dir : String) (symbols : List String) :
    (mainRun fetch write dir symbols = Except.ok () ↔
      ∀ s ∈ symbols, get_data fetch write s (outPath dir s) = Except.ok ()) ∧
    (∀ e, mainRun fetch write dir symbols = Except.error e →
      ∃ s ∈ symbols, get_data fetch write s (outPath dir s) = Except.error e) ∧
    (exitCode (mainRun fetch write dir symbols) = 0 ↔
      ∀ s ∈ symbols, get_data fetch write s (outPath dir s) = Except.ok ()) := by
  refine ⟨runAll_ok_iff _ _, fun e he => runAll_error _ _ e he, ?_⟩
  rw [← runAll_ok_iff]
  unfold mainRun exitCode
  cases runAll (fun s => get_data fetch write s (outPath dir s)) symbols with
  | ok u => cases u; simp
  | error e => simp

/-- Witness for C1 at a failing fetch: the run surfaces the failing
symbol's error. -/
theorem orchestrator_fail_fast_witness :
    ∃ s ∈ ["BADSYM"],
      get_data (fun _ => Except.error Err.fetchError) (fun _ _ => Except.ok ()) s
        (outPath "data" s) = Except.error Err.fetchError :=
  (orchestrator_fail_fast (fun _ => Except.error Err.fetchError) (fun _ _ => Except.ok ())
    "data" ["BADSYM"]).2.1 Err.fetchError rfl

/-- Claim C2: a row whose child-cell count differs from seven fails with
`MalformedRow` and produces no Entry; no partial extraction is
attempted. -/
theorem row_parser_malformed (cells : List String) (h : cells.length ≠ 7) :
    Entry.from_element cells = Except.error Err.malformedRow := by
  rcases cells with _ | ⟨a1, _ | ⟨a2, _ | ⟨a3, _ | ⟨a4, _ | ⟨a5, _ | ⟨a6, _ | ⟨a7, _ | ⟨a8, t⟩⟩⟩⟩⟩⟩⟩⟩
  all_goals first | rfl | (exfalso; exact h rfl)

/-- Witness for C2 at a six-cell row. -/
theorem row_parser_malformed_witness :
    ["Jan 5, 2021", "100.00", "105.50", "99.25", "104.00", "104.00"].length ≠ 7 ∧
    Entry.from_element ["Jan 5, 2021", "100.00", "105.50", "99.25", "104.00", "104.00"] =
      Except.error Err.malformedRow :=
  ⟨by decide, row_parser_malformed _ (by decide)⟩

/-- Claim C5: the concrete row
`["Jan 5, 2021", "100.00", "105.50", "99.25", "104.00", "104.00", "1,234,567"]`
parses to the Entry with date 2021-01-05, prices 100.00 / 105.50 / 99.25
/ 104.00 / 104.00 and volume 1234567, and that Entry serialises to
exactly `2021-01-05,100,105.5,99.25,104,104,1234567`. -/
theorem concrete_row_roundtrip :
    Entry.from_element
        ["Jan 5, 2021", "100.00", "105.50", "99.25", "104.00", "104.00", "1,234,567"] =
      Except.ok
        ⟨⟨2021, 1, 5⟩, ⟨10000, 2⟩, ⟨10550, 2⟩, ⟨9925, 2⟩, ⟨10400, 2⟩, ⟨10400, 2⟩, 1234567⟩ ∧
    Entry.display
        ⟨⟨2021, 1, 5⟩, ⟨10000, 2⟩, ⟨10550, 2⟩, ⟨9925, 2⟩, ⟨10400, 2⟩, ⟨10400, 2⟩, 1234567⟩ =
      "2021-01-05,100,105.5,99.25,104,104,1234567" := by
  constructor <;> rfl

/-- Claim C9: the per-symbol write is not atomic: the output file is
truncated by the open before any content is written, a failure after the
open leaves a partial file (empty or header-only) on disk whose contents
no longer depend on the previous contents, the partial contents are a
prefix of the intended output, and the writer never removes the file on
failure. -/
theorem write_not_atomic (old : Option String) (data : String) (k : Nat) :
    writeFile old data 0 = (old, false) ∧
    writeFile old data 1 = (some "", false) ∧
    writeFile old data 2 = (some HEADERS, false) ∧
    writeFile old data (k + 1) = writeFile none data (k + 1) ∧
    (∃ s rest, (writeFile old data (k + 1)).1 = some s ∧ HEADERS ++ data = s ++ rest) := by
  refine ⟨rfl, rfl, rfl, ?_, ?_⟩
  · unfold writeFile
    simp
  · unfold writeFile
    rcases k with _ | _ | k
    · exact ⟨"", HEADERS ++ data, rfl, (String.empty_append _).symm⟩
    · exact ⟨HEADERS, data, rfl, rfl⟩
    · exact ⟨HEADERS ++ data, "", rfl, (String.append_empty _).symm⟩

/-- Claim C10: with an empty symbol list the run succeeds vacuously: no
per-symbol work happens (the result does not depend on the fetcher), no
file is written, the output directory is still created, and the exit
status is 0. -/
theorem empty_symbols_vacuous (fetch fetch' : String → Except Err (List (List String)))
    (dir : String) (sys : Sys) :
    (mainFs fetch dir [] sys).1 = Except.ok () ∧
    exitCode (mainFs fetch dir [] sys).1 = 0 ∧
    (mainFs fetch dir [] sys).2.files = sys.files ∧
    dir ∈ (mainFs fetch dir [] sys).2.dirs ∧
    mainFs fetch dir [] sys = mainFs fetch' dir [] sys := by
  unfold mainFs runSymbolsFs
  refine ⟨rfl, rfl, rfl, ?_, rfl⟩
  by_cases h : dir ∈ sys.dirs <;> simp [h]

/-- Claim C3: the Document Extractor's output is exactly characterised by
the spec-side relation `ExtractSpec`: the first selector match is always
excluded regardless of its content, every remaining row the Row Parser
accepts is kept (failing rows dropped, valid siblings kept), in document
order; and any sequence satisfying that description is the extractor's
output. -/
theorem extractor_matches_spec (rows : List (List String)) :
    ExtractSpec rows (extract rows) ∧
    ∀ out, ExtractSpec rows out → out = extract rows := by
  constructor
  · cases rows with
    | nil => exact ExtractSpec.nil
    | cons r rest =>
      exact ExtractSpec.start r rest _ (by simpa [extract] using keepsValid_filterMap rest)
  · intro out hout
    cases hout with
    | nil => rfl
    | start r rowsRest outRest h => simpa [extract] using keepsValid_det h

/-- Witness for C3 at a one-row page: the single (header) row is
excluded, and the empty output is the unique sequence the spec relation
admits. -/
theorem extractor_matches_spec_witness :
    ExtractSpec [["header"]] (extract [["header"]]) ∧ [] = extract [["header"]] :=
  ⟨(extractor_matches_spec [["header"]]).1,
    (extractor_matches_spec [["header"]]).2 [] (ExtractSpec.start _ _ _ KeepsValid.nil)⟩

/-- Claim C6: zero selector matches is not an error: the extractor's
output is empty, the symbol's pipeline still succeeds, and the written
file holds exactly the header line. -/
theorem empty_match_header_only (fetch : String → Except Err (List (List String)))
    (dir s : String) (sys : Sys) (h : fetch s = Except.ok []) :
    extract [] = [] ∧
    csvContent [] = HEADERS ∧
    runSymbolsFs fetch dir [s] sys =
      (Except.ok (), { sys with files := sys.files ++ [(outPath dir s, HEADERS)] }) := by
  have hc : csvContent (extract []) = HEADERS := by
    rw [csvContent]
    exact String.append_empty _
  exact ⟨rfl, hc, by simp [runSymbolsFs, h, hc]⟩

/-- Witness for C6 at a fetch returning a page with no matching rows. -/
theorem empty_match_header_only_witness :
    extract [] = [] ∧
    csvContent [] = HEADERS ∧
    runSymbolsFs (fun _ => Except.ok []) "data" ["AAPL"] ⟨[], []⟩ =
      (Except.ok (), ⟨[], [(outPath "data" "AAPL", HEADERS)]⟩) :=
  empty_match_header_only (fun _ => Except.ok []) "data" "AAPL" ⟨[], []⟩ rfl

/-- Claim C7: the volume cell is handled by removing all comma
characters and parsing the rest as a non-negative (64-bit) integer: a
successful row parse carries exactly that parsed value, and a volume
that does not parse this way (negative, fractional, …) makes the whole
row fail, with no default substituted. -/
theorem volume_comma_strip (d o hi lo cl adj v : String) :
    (∀ n, parseU64 (stripCommas v) = some n →
      ∀ e, Entry.from_element [d, o, hi, lo, cl, adj, v] = Except.ok e → e.volume = n) ∧
    (parseU64 (stripCommas v) = none →
      ∀ e, Entry.from_element [d, o, hi, lo, cl, adj, v] ≠ Except.ok e) := by
  constructor
  · intro n hn e he
    simp only [Entry.from_element] at he
    rw [hn] at he
    cases h1 : parseDate d <;> rw [h1] at he
    case none => exact Except.noConfusion he
    case some dd =>
    cases h2 : parseDec o <;> rw [h2] at he
    case none => exact Except.noConfusion he
    case some oo =>
    cases h3 : parseDec hi <;> rw [h3] at he
    case none => exact Except.noConfusion he
    case some hh =>
    cases h4 : parseDec lo <;> rw [h4] at he
    case none => exact Except.noConfusion he
    case some ll =>
    cases h5 : parseDec cl <;> rw [h5] at he
    case none => exact Except.noConfusion he
    case some cc =>
    cases h6 : parseDec adj <;> rw [h6] at he
    case none => exact Except.noConfusion he
    case some aa =>
    simp only [req, ok_bind, error_bind] at he
    cases he
    rfl
  · intro hv e he
    simp only [Entry.from_element] at he
    rw [hv] at he
    cases h1 : parseDate d <;> rw [h1] at he
    case none => exact Except.noConfusion he
    case some dd =>
    cases h2 : parseDec o <;> rw [h2] at he
    case none => exact Except.noConfusion he
    case some oo =>
    cases h3 : parseDec hi <;> rw [h3] at he
    case none => exact Except.noConfusion he
    case some hh =>
    cases h4 : parseDec lo <;> rw [h4] at he
    case none => exact Except.noConfusion he
    case some ll =>
    cases h5 : parseDec cl <;> rw [h5] at he
    case none => exact Except.noConfusion he
    case some cc =>
    cases h6 : parseDec adj <;> rw [h6] at he
    case none => exact Except.noConfusion he
    case some aa =>
    exact Except.noConfusion he

/-- Witness for C7: a comma-grouped volume parses to the comma-stripped
integer, while negative and fractional volumes make the row fail. -/
theorem volume_comma_strip_witness :
    (⟨⟨2021, 1, 5⟩, ⟨1, 0⟩, ⟨1, 0⟩, ⟨1, 0⟩, ⟨1, 0⟩, ⟨1, 0⟩, 1234⟩ : Entry).volume = 1234 ∧
    Entry.from_element ["Jan 5, 2021", "1", "1", "1", "1", "1", "-5"] ≠
      Except.ok ⟨⟨2021, 1, 5⟩, ⟨1, 0⟩, ⟨1, 0⟩, ⟨1, 0⟩, ⟨1, 0⟩, ⟨1, 0⟩, 5⟩ ∧
    Entry.from_element ["Jan 5, 2021", "1", "1", "1", "1", "1", "1.5"] ≠
      Except.ok ⟨⟨2021, 1, 5⟩, ⟨1, 0⟩, ⟨1, 0⟩, ⟨1, 0⟩, ⟨1, 0⟩, ⟨1, 0⟩, 1⟩ :=
  ⟨(volume_comma_strip "Jan 5, 2021" "1" "1" "1" "1" "1" "1,234").1 1234 rfl _ rfl,
    (volume_comma_strip "Jan 5, 2021" "1" "1" "1" "1" "1" "-5").2 rfl _,
    (volume_comma_strip "Jan 5, 2021" "1" "1" "1" "1" "1" "1.5").2 rfl _⟩

/-- Counterexample to C8: `with_extension("csv")` replaces an existing
extension instead of appending, so the symbol `BRK.B` is written to
`data/BRK.csv`, not `data/BRK.B.csv`. -/
theorem outPath_dot_counterexample :
    outPath "data" "BRK.B" = "data/BRK.csv" ∧ outPath "data" "BRK.B" ≠ "data/BRK.B.csv" := by
  constructor
  · rfl
  · decide

/-- Claim C8 as amended: for a non-empty symbol containing no dot (hence
no extension for `with_extension` to replace) and no slash, with an
output directory not ending in a separator, the derived output path is
exactly `<output-dir>/<symbol>.csv`. -/
theorem outPath_append_csv (dir symbol : String)
    (hdir : dir.toList.getLast? ≠ some '/')
    (hslash : '/' ∉ symbol.toList)
    (hdot : '.' ∉ symbol.toList)
    (hne : symbol ≠ "") :
    outPath dir symbol = dir ++ "/" ++ symbol ++ ".csv" := by
  have hnil : symbol.toList ≠ [] := by
    intro h
    exact hne (String.ext (by simpa using h))
  have h1 : symbol.toList.head? ≠ some '/' := by
    cases hs : symbol.toList with
    | nil => simp
    | cons c cs =>
      simp only [List.head?_cons]
      intro hc
      injection hc with hc
      exact hslash (by rw [hs, hc]; exact List.mem_cons_self _ _)
  unfold outPath pathJoin
  rw [if_neg h1, if_neg hdir]
  unfold withExtension
  have hjoin : (dir ++ "/" ++ symbol).toList = dir.toList ++ '/' :: symbol.toList := by
    simp [toList_append]
  rw [hjoin]
  dsimp only
  have hrev : (dir.toList ++ '/' :: symbol.toList).reverse =
      symbol.toList.reverse ++ '/' :: dir.toList.reverse := by
    simp [List.reverse_append]
  rw [hrev]
  have hx : ∀ c ∈ symbol.toList.reverse, (decide ¬(c = '/')) = true := by
    intro c hc
    have : c ≠ '/' := fun h => hslash (h ▸ List.mem_reverse.mp hc)
    simpa using this
  rw [span_middle hx (by simp)]
  dsimp only
  rw [if_neg (by simpa using hnil)]
  have hstem : fileStem symbol.toList.reverse.reverse = symbol.toList.reverse.reverse := by
    unfold fileStem
    have hx2 : ∀ c ∈ symbol.toList.reverse.reverse.reverse, (decide ¬(c = '.')) = true := by
      intro c hc
      have hcm : c ∈ symbol.toList := by simpa using hc
      have : c ≠ '.' := fun h => hdot (h ▸ hcm)
      simpa using this
    rw [span_all_pos hx2]
  rw [hstem]
  apply String.ext
  simp [String.data_append]

/-- Witness for the amended C8 at a dot-free symbol. -/
theorem outPath_append_csv_witness :
    outPath "data" "AAPL" = "data" ++ "/" ++ "AAPL" ++ ".csv" :=
  outPath_append_csv "data" "AAPL" (by decide) (by decide) (by decide) (by decide)

/-- Claim C4: for every sequence of entries, the CSV output splits at
newlines into the literal header line
`Date,Open,High,Low,Close,Adj Close,Volume`, followed by exactly one
line per Entry (its comma-joined rendering, ISO date first) in the same
order, every line ending in a newline (the trailing empty piece records
the final newline). -/
theorem csv_writer_shape (entries : List Entry) :
    linesOf (csvContent entries).toList =
      "Date,Open,High,Low,Close,Adj Close,Volume".toList ::
        (entries.map (fun e => (Entry.display e).toList) ++ [[]]) := by
  have hh : HEADERS.toList = "Date,Open,High,Low,Close,Adj Close,Volume".toList ++ ['\n'] :=
    by decide
  have hmm : (entries.map (fun e => (Entry.display e).toList)).map (fun l => l ++ ['\n']) =
      entries.map (fun e => (Entry.display e).toList ++ ['\n']) := by
    rw [List.map_map]
    rfl
  have h1 : (csvContent entries).toList =
      "Date,Open,High,Low,Close,Adj Close,Volume".toList ++ '\n' ::
        ((entries.map (fun e => (Entry.display e).toList)).map (fun l => l ++ ['\n'])).flatten := by
    rw [csvContent, toList_append, hh, dataString_toList, hmm, List.append_assoc]
    rfl
  rw [h1, linesOf_append _ (by decide), linesOf_flatten]
  intro l hl
  obtain ⟨e, _, rfl⟩ := List.mem_map.mp hl
  exact newline_notin_display e

end Stock
